import Mathlib

/-!
# SentinelAI frontend core — formal model

Shallow embedding of the decision logic of `src/App.jsx`:

* `getIssuesForFeature` — the per-lens classification of backend issues
  (ClassificationEngine / `classify` in the specification);
* `explainIssue` — the keyword-based explanation helper (ExplanationEngine);
* `analyzeFile` — the state transition performed by the ANALYZE button
  (clearing of prior results, decoding of the backend response).

JavaScript runtime values that can flow through the loosely-typed payload
are modelled by the inductive type `JVal`; `typeof i === "string"` becomes
a match on the `vstr` constructor, `Array.isArray` a match on `varr`, and
JavaScript string `includes` becomes `strContains`.
-/

namespace SentinelAI

/-- A JavaScript runtime value, as far as the dashboard's data flow needs:
strings, numbers, booleans, `null`, `undefined` and arrays. -/
inductive JVal where
  | vstr : String → JVal
  | vnum : Int → JVal
  | vbool : Bool → JVal
  | vnull : JVal
  | vundef : JVal
  | varr : List JVal → JVal
deriving Repr

/-- `Array.isArray` on a `JVal`. -/
def JVal.isArr : JVal → Bool
  | JVal.varr _ => true
  | _ => false

/-- JavaScript `s.toLowerCase()` (ASCII range): lower-case every character.
Stated directly over the character list so that it evaluates by kernel
reduction. -/
def lowerStr (s : String) : String :=
  String.mk (s.data.map Char.toLower)

/-- JavaScript `s.includes(pat)`: `pat` occurs as a contiguous substring of
`s`.  Stated over the character lists of the two strings. -/
def strContains (s pat : String) : Bool :=
  (List.range (s.data.length + 1)).any (fun i =>
    (s.data.drop i).take pat.data.length == pat.data)

/-- `issues.filter((i) => typeof i === "string")` — the sanitization step
shared by every lens. -/
def sanitizeIssues (l : List JVal) : List String :=
  l.filterMap (fun v =>
    match v with
    | JVal.vstr s => some s
    | _ => none)

/-- The fixed severity-override message of the security lens. -/
def securityOverrideMsg : String :=
  "Potential security vulnerability detected due to unsafe coding patterns"

/-- The fallback message of the complexity lens. -/
def complexityFallbackMsg : String :=
  "High cyclomatic complexity detected"

/-- The fixed stub message of the dependency lens. -/
def dependencyMsg : String :=
  "Unused or risky dependency detected"

/-- The fixed stub message of the refactor lens. -/
def refactorMsg : String :=
  "Code can be refactored to improve readability"

/-- The keyword set of the security lens. -/
def securityKeywords : List String :=
  ["secret", "eval", "exec", "insecure"]

/-- `getIssuesForFeature` from `src/App.jsx` (the specification's
`classify(lens, issues, score)`).  `issues` is the raw stored value (the
function guards on `Array.isArray`); `score` is `null` or an integer. -/
def getIssuesForFeature (feature : String) (issues : JVal)
    (score : Option Int) : List String :=
  match issues with
  | JVal.varr l =>
    if l.length = 0 then []
    else
      let safeIssues := sanitizeIssues l
      if feature = "security" then
        match score with
        | some n =>
          if n ≤ 35 then [securityOverrideMsg]
          else safeIssues.filter (fun i =>
            securityKeywords.any (fun w => strContains (lowerStr i) w))
        | none =>
          safeIssues.filter (fun i =>
            securityKeywords.any (fun w => strContains (lowerStr i) w))
      else if feature = "complexity" then
        if safeIssues.any (fun i => strContains (lowerStr i) "complex") then
          safeIssues.filter (fun i => strContains (lowerStr i) "complex")
        else [complexityFallbackMsg]
      else if feature = "dependency" then [dependencyMsg]
      else if feature = "refactor" then [refactorMsg]
      else []
  | _ => []

/-- `explainIssue` from `src/App.jsx`: ordered keyword table, first match
wins, generic fallback. -/
def explainIssue (issue : String) : String :=
  let text := lowerStr issue
  if strContains text "eval" || strContains text "exec" then
    "This allows execution of arbitrary code and can be exploited by attackers."
  else if strContains text "secret" || strContains text "password"
      || strContains text "token" then
    "Hardcoded secrets can leak credentials and should be stored securely."
  else if strContains text "complex" then
    "High complexity makes code harder to understand, test, and maintain."
  else if strContains text "dependency" then
    "Unused or risky dependencies increase attack surface and maintenance cost."
  else if strContains text "refactor" then
    "Refactoring improves readability and long-term maintainability."
  else
    "This issue may negatively affect security or code quality."

/-- The generic fallback explanation ("no match" row of the table). -/
def genericExplanation : String :=
  "This issue may negatively affect security or code quality."

/-- Modelled from the spec: the ordered rule table of the
ExplanationEngine (§4.3), one row per keyword set. -/
def explainRules : List (List String × String) :=
  [ (["eval", "exec"],
     "This allows execution of arbitrary code and can be exploited by attackers."),
    (["secret", "password", "token"],
     "Hardcoded secrets can leak credentials and should be stored securely."),
    (["complex"],
     "High complexity makes code harder to understand, test, and maintain."),
    (["dependency"],
     "Unused or risky dependencies increase attack surface and maintenance cost."),
    (["refactor"],
     "Refactoring improves readability and long-term maintainability.") ]

/-- Modelled from the spec: evaluate a rule table top to bottom against an
already-lowercased text, first match wins, fall back to the generic
explanation. -/
def firstMatch (text : String) : List (List String × String) → String
  | [] => genericExplanation
  | (kws, msg) :: rest =>
    if kws.any (fun w => strContains text w) then msg
    else firstMatch text rest

/-- The React component state touched by `analyzeFile`. -/
structure AppState where
  file : Option String
  score : JVal
  issues : JVal
  activeFeature : Option String
  loading : Bool
deriving Repr

/-- The parsed JSON body of a successful backend response; a missing field
is `vundef`. -/
structure RawResponse where
  score : JVal
  issues : JVal
deriving Repr

/-- Outcome of the `fetch` + `res.json()` pair: a parsed body, or a thrown
transport/parse error. -/
inductive FetchOutcome where
  | success : RawResponse → FetchOutcome
  | failure : FetchOutcome
deriving Repr

/-- The state after the four clearing setters that run before the request
is issued: `setLoading(true)`, `setIssues([])`, `setActiveFeature(null)`,
`setScore(null)`. -/
def clearedState (s : AppState) : AppState :=
  { s with
    loading := true
    issues := JVal.varr []
    activeFeature := none
    score := JVal.vnull }

/-- `Array.isArray(data.issues) ? data.issues : []` — the defensive decode
of the `issues` field. -/
def decodeIssues (v : JVal) : JVal :=
  match v with
  | JVal.varr l => JVal.varr l
  | _ => JVal.varr []

/-- `analyzeFile` from `src/App.jsx` as a state transition: guard on a
selected file, clear prior results, then either store the decoded response
(`setScore(data.score)` verbatim, `issues` defensively decoded) or, on a
thrown error, change nothing further; `finally` resets `loading`. -/
def analyzeFile (s : AppState) (outcome : FetchOutcome) : AppState :=
  match s.file with
  | none => s
  | some _ =>
    let s1 := clearedState s
    match outcome with
    | FetchOutcome.success data =>
      { s1 with
        score := data.score
        issues := decodeIssues data.issues
        loading := false }
    | FetchOutcome.failure => { s1 with loading := false }

/-! ## Helper lemmas -/

theorem mem_of_mem_sanitizeIssues {s : String} {l : List JVal}
    (h : s ∈ sanitizeIssues l) : JVal.vstr s ∈ l := by
  rw [sanitizeIssues, List.mem_filterMap] at h
  obtain ⟨a, ha, hfa⟩ := h
  cases a with
  | vstr t => simp only [Option.some.injEq] at hfa; subst hfa; exact ha
  | vnum n => simp at hfa
  | vbool b => simp at hfa
  | vnull => simp at hfa
  | vundef => simp at hfa
  | varr l => simp at hfa

theorem any_iff_filter_ne_nil {p : String → Bool} {l : List String} :
    l.any p = true ↔ l.filter p ≠ [] := by
  rw [List.any_eq_true]
  constructor
  · rintro ⟨x, hx, hpx⟩ hnil
    have hxf : x ∈ l.filter p := List.mem_filter.mpr ⟨hx, hpx⟩
    rw [hnil] at hxf
    exact absurd hxf (List.not_mem_nil x)
  · intro h
    obtain ⟨x, hx⟩ := List.exists_mem_of_ne_nil _ h
    exact ⟨x, (List.mem_filter.mp hx).1, (List.mem_filter.mp hx).2⟩

/-! ## Claim theorems -/

/-- C1, counterexample: with the empty issues sequence and score 10 the
security lens returns the empty sequence, not the fixed override message —
the early guard at the top of `getIssuesForFeature` fires first. -/
theorem security_lowScore_override_cex :
    getIssuesForFeature "security" (JVal.varr []) (some 10) = [] ∧
    getIssuesForFeature "security" (JVal.varr []) (some 10)
      ≠ [securityOverrideMsg] := by
  decide

/-- C1 (amended): for every NON-EMPTY issues sequence and every integer
score with score ≤ 35, the security lens returns exactly the single fixed
override message, regardless of the issues' content. -/
theorem security_lowScore_override (l : List JVal) (n : Int)
    (hl : l ≠ []) (hn : n ≤ 35) :
    getIssuesForFeature "security" (JVal.varr l) (some n)
      = [securityOverrideMsg] := by
  have hl0 : ¬ l.length = 0 := by simpa [List.length_eq_zero] using hl
  simp [getIssuesForFeature, hl0, hn]

/-- C1, witness: the override fires on a one-element issue list with no
security keyword at all, at score 20. -/
theorem security_lowScore_override_wit :
    getIssuesForFeature "security" (JVal.varr [JVal.vstr "all good"]) (some 20)
      = [securityOverrideMsg] :=
  security_lowScore_override [JVal.vstr "all good"] 20
    (List.cons_ne_nil _ _) (by decide)

/-- C2, counterexample: on the empty issues sequence the dependency and
refactor lenses return the empty sequence, not their fixed stub messages —
the early guard fires before the per-lens rules. -/
theorem stub_lenses_cex :
    getIssuesForFeature "dependency" (JVal.varr []) none = [] ∧
    getIssuesForFeature "refactor" (JVal.varr []) none = [] ∧
    getIssuesForFeature "dependency" (JVal.varr []) none ≠ [dependencyMsg] ∧
    getIssuesForFeature "refactor" (JVal.varr []) none ≠ [refactorMsg] := by
  decide

/-- C2 (amended): for every NON-EMPTY issues sequence and every score, the
dependency lens returns exactly its fixed stub message and the refactor
lens returns exactly its fixed stub message. -/
theorem stub_lenses_nonempty (l : List JVal) (score : Option Int)
    (hl : l ≠ []) :
    getIssuesForFeature "dependency" (JVal.varr l) score = [dependencyMsg] ∧
    getIssuesForFeature "refactor" (JVal.varr l) score = [refactorMsg] := by
  have hl0 : ¬ l.length = 0 := by simpa [List.length_eq_zero] using hl
  constructor <;> simp [getIssuesForFeature, hl0]

/-- C2, witness: the stub messages on a one-element non-string issue list
with score 99. -/
theorem stub_lenses_nonempty_wit :
    getIssuesForFeature "dependency" (JVal.varr [JVal.vnum 1]) (some 99)
      = [dependencyMsg] ∧
    getIssuesForFeature "refactor" (JVal.varr [JVal.vnum 1]) (some 99)
      = [refactorMsg] :=
  stub_lenses_nonempty [JVal.vnum 1] (some 99) (List.cons_ne_nil _ _)

/-- C3, counterexample: on the empty issues sequence the complexity lens
returns the empty sequence — not its fallback message — so the lens CAN
return an empty sequence: the early guard fires before the fallback. -/
theorem complexity_fallback_cex :
    getIssuesForFeature "complexity" (JVal.varr []) none = [] ∧
    getIssuesForFeature "complexity" (JVal.varr []) none
      ≠ [complexityFallbackMsg] := by
  decide

/-- C3 (amended): for every NON-EMPTY issues sequence and every score, the
complexity lens returns the subsequence of sanitized issues whose
lowercase text contains "complex", or exactly the fallback message when
that subsequence is empty; hence on non-empty input it never returns an
empty sequence. -/
theorem complexity_filter_or_fallback (l : List JVal) (score : Option Int)
    (hl : l ≠ []) :
    getIssuesForFeature "complexity" (JVal.varr l) score =
      (if (sanitizeIssues l).filter (fun i => strContains (lowerStr i) "complex") = []
        then [complexityFallbackMsg]
        else (sanitizeIssues l).filter (fun i => strContains (lowerStr i) "complex")) ∧
    getIssuesForFeature "complexity" (JVal.varr l) score ≠ [] := by
  have hl0 : ¬ l.length = 0 := by simpa [List.length_eq_zero] using hl
  have key : getIssuesForFeature "complexity" (JVal.varr l) score =
      (if (sanitizeIssues l).any (fun i => strContains (lowerStr i) "complex") = true
        then (sanitizeIssues l).filter (fun i => strContains (lowerStr i) "complex")
        else [complexityFallbackMsg]) := by
    simp [getIssuesForFeature, hl0]
  by_cases hany :
      (sanitizeIssues l).any (fun i => strContains (lowerStr i) "complex") = true
  · have hne := any_iff_filter_ne_nil.mp hany
    rw [key, if_pos hany]
    exact ⟨(if_neg hne).symm, hne⟩
  · have hnil : (sanitizeIssues l).filter
        (fun i => strContains (lowerStr i) "complex") = [] := by
      by_contra hne
      exact hany (any_iff_filter_ne_nil.mpr hne)
    rw [key, if_neg hany]
    exact ⟨(if_pos hnil).symm, by simp⟩

/-- C3, witness: a two-element list where exactly one entry mentions
"complex" yields that entry, and the output is non-empty. -/
theorem complexity_filter_or_fallback_wit :
    getIssuesForFeature "complexity"
        (JVal.varr [JVal.vstr "complex loop detected", JVal.vstr "other"])
        (some 50) ≠ [] ∧
    getIssuesForFeature "complexity"
        (JVal.varr [JVal.vstr "complex loop detected", JVal.vstr "other"])
        (some 50) = ["complex loop detected"] :=
  ⟨(complexity_filter_or_fallback _ _ (List.cons_ne_nil _ _)).2, by decide⟩

/-- C4, counterexample: a successful response whose score field is the
string "not a number" is stored verbatim — the stored score is that
string, not null: the code runs setScore(data.score) with no numeric
check. -/
theorem score_not_normalized_cex :
    (analyzeFile
        (AppState.mk (some "a.py") JVal.vnull (JVal.varr []) none false)
        (FetchOutcome.success
          (RawResponse.mk (JVal.vstr "not a number") (JVal.varr [])))).score
      = JVal.vstr "not a number" ∧
    JVal.vstr "not a number" ≠ JVal.vnull :=
  ⟨rfl, fun h => JVal.noConfusion h⟩

/-- C4 (amended): on a successful decode, a non-array issues field is
replaced by the empty sequence (and an array field kept as is), while the
score field is stored exactly as received — it is NOT normalized to null
when non-numeric or missing. -/
theorem decode_success_fields (s : AppState) (data : RawResponse)
    (hf : s.file.isSome) :
    (analyzeFile s (FetchOutcome.success data)).score = data.score ∧
    ((data.issues).isArr = false →
      (analyzeFile s (FetchOutcome.success data)).issues = JVal.varr []) ∧
    ((data.issues).isArr = true →
      (analyzeFile s (FetchOutcome.success data)).issues = data.issues) := by
  obtain ⟨f, hfe⟩ := Option.isSome_iff_exists.mp hf
  have hred : analyzeFile s (FetchOutcome.success data) =
      { clearedState s with
        score := data.score
        issues := decodeIssues data.issues
        loading := false } := by
    unfold analyzeFile
    rw [hfe]
  refine ⟨by rw [hred], fun h => ?_, fun h => ?_⟩
  · rw [hred]
    cases hd : data.issues with
    | varr l => rw [hd] at h; simp [JVal.isArr] at h
    | vstr t => rfl
    | vnum n => rfl
    | vbool b => rfl
    | vnull => rfl
    | vundef => rfl
  · rw [hred]
    cases hd : data.issues with
    | varr l => rfl
    | vstr t => rw [hd] at h; simp [JVal.isArr] at h
    | vnum n => rw [hd] at h; simp [JVal.isArr] at h
    | vbool b => rw [hd] at h; simp [JVal.isArr] at h
    | vnull => rw [hd] at h; simp [JVal.isArr] at h
    | vundef => rw [hd] at h; simp [JVal.isArr] at h

/-- C4, witness: a response with numeric score 77 and a null issues field
stores score 77 and the empty issues array. -/
theorem decode_success_fields_wit :
    (analyzeFile
        (AppState.mk (some "a.py") JVal.vnull (JVal.varr []) none false)
        (FetchOutcome.success
          (RawResponse.mk (JVal.vnum 77) JVal.vnull))).score = JVal.vnum 77 ∧
    (analyzeFile
        (AppState.mk (some "a.py") JVal.vnull (JVal.varr []) none false)
        (FetchOutcome.success
          (RawResponse.mk (JVal.vnum 77) JVal.vnull))).issues
      = JVal.varr [] :=
  ⟨(decode_success_fields
      (AppState.mk (some "a.py") JVal.vnull (JVal.varr []) none false)
      (RawResponse.mk (JVal.vnum 77) JVal.vnull) rfl).1,
   (decode_success_fields
      (AppState.mk (some "a.py") JVal.vnull (JVal.varr []) none false)
      (RawResponse.mk (JVal.vnum 77) JVal.vnull) rfl).2.1 rfl⟩

/-- C5: whenever the score is null or strictly greater than 35, the
security lens returns exactly the sanitized issues whose lowercase text
contains one of the keywords "secret", "eval", "exec", "insecure", in
their original relative order (the subsequence may be empty; the equation
also covers the empty issues list, where the guard and the filter agree). -/
theorem security_keyword_filter (l : List JVal) (score : Option Int)
    (hs : ∀ n, score = some n → 35 < n) :
    getIssuesForFeature "security" (JVal.varr l) score =
      (sanitizeIssues l).filter (fun i =>
        securityKeywords.any (fun w => strContains (lowerStr i) w)) := by
  by_cases hl : l = []
  · subst hl
    simp [getIssuesForFeature, sanitizeIssues]
  · have hl0 : ¬ l.length = 0 := by simpa [List.length_eq_zero] using hl
    cases score with
    | none => simp [getIssuesForFeature, hl0]
    | some n =>
      have h35 : ¬ n ≤ 35 := by
        have := hs n rfl
        omega
      simp [getIssuesForFeature, hl0, h35]

/-- C5, witness: at score 50, of the issues "Found eval() call" and
"unrelated note" exactly the first survives the keyword filter. -/
theorem security_keyword_filter_wit :
    getIssuesForFeature "security"
        (JVal.varr [JVal.vstr "Found eval() call", JVal.vstr "unrelated note"])
        (some 50)
      = ["Found eval() call"] := by
  rw [security_keyword_filter
    [JVal.vstr "Found eval() call", JVal.vstr "unrelated note"] (some 50)
    (fun n hn => by injection hn with hn; omega)]
  decide

/-- C6: explainIssue implements exactly the six-row ordered rule table of
the specification — first matching keyword set wins, generic fallback
otherwise — and in particular "Hardcoded password found" gets the
credential-leak explanation and the empty string the generic fallback. -/
theorem explainIssue_rule_table :
    (∀ s, explainIssue s = firstMatch (lowerStr s) explainRules) ∧
    explainIssue "Hardcoded password found" =
      "Hardcoded secrets can leak credentials and should be stored securely." ∧
    explainIssue "" = genericExplanation := by
  refine ⟨fun s => ?_, by decide, by decide⟩
  simp [explainIssue, firstMatch, explainRules, genericExplanation, or_assoc]

/-- C7: whatever the lens and the score, every string in the classifier's
output either occurs as a string element of the input issues array or is
one of the four fixed messages; non-string entries are filtered out before
every lens rule, and the function is total. -/
theorem classify_mem_sanitized (feature : String) (issues : JVal)
    (score : Option Int) (s : String)
    (hmem : s ∈ getIssuesForFeature feature issues score) :
    (∃ l, issues = JVal.varr l ∧ JVal.vstr s ∈ l) ∨
      s ∈ [securityOverrideMsg, complexityFallbackMsg,
           dependencyMsg, refactorMsg] := by
  cases issues with
  | vstr t => simp [getIssuesForFeature] at hmem
  | vnum n => simp [getIssuesForFeature] at hmem
  | vbool b => simp [getIssuesForFeature] at hmem
  | vnull => simp [getIssuesForFeature] at hmem
  | vundef => simp [getIssuesForFeature] at hmem
  | varr l =>
    have key : JVal.vstr s ∈ l ∨
        s ∈ [securityOverrideMsg, complexityFallbackMsg,
             dependencyMsg, refactorMsg] := by
      by_cases hl0 : l.length = 0
      · simp [getIssuesForFeature, hl0] at hmem
      · by_cases h1 : feature = "security"
        · subst h1
          cases score with
          | some n =>
            by_cases h35 : n ≤ 35
            · simp [getIssuesForFeature, hl0, h35] at hmem
              right
              simp [hmem]
            · simp [getIssuesForFeature, hl0, h35] at hmem
              left
              exact mem_of_mem_sanitizeIssues hmem.1
          | none =>
            simp [getIssuesForFeature, hl0] at hmem
            left
            exact mem_of_mem_sanitizeIssues hmem.1
        · by_cases h2 : feature = "complexity"
          · subst h2
            by_cases hany : (sanitizeIssues l).any
                (fun i => strContains (lowerStr i) "complex") = true
            · simp [getIssuesForFeature, hl0, hany] at hmem
              left
              exact mem_of_mem_sanitizeIssues hmem.1
            · simp [getIssuesForFeature, hl0, hany] at hmem
              right
              simp [hmem]
          · by_cases h3 : feature = "dependency"
            · subst h3
              simp [getIssuesForFeature, hl0] at hmem
              right
              simp [hmem]
            · by_cases h4 : feature = "refactor"
              · subst h4
                simp [getIssuesForFeature, hl0] at hmem
                right
                simp [hmem]
              · simp [getIssuesForFeature, hl0, h1, h2, h3, h4] at hmem
    exact key.imp (fun h => ⟨l, rfl, h⟩) id

/-- C7, witness: at score 50 with issues ["eval used", null, 3], the output
element "eval used" is a string element of the input array. -/
theorem classify_mem_sanitized_wit :
    (∃ l, JVal.varr [JVal.vstr "eval used", JVal.vnull, JVal.vnum 3]
        = JVal.varr l ∧ JVal.vstr "eval used" ∈ l) ∨
      "eval used" ∈ [securityOverrideMsg, complexityFallbackMsg,
                     dependencyMsg, refactorMsg] :=
  classify_mem_sanitized "security"
    (JVal.varr [JVal.vstr "eval used", JVal.vnull, JVal.vnum 3])
    (some 50) "eval used" (by decide)

/-- C8: for every lens and score, if the stored issues value is the empty
array or not an array at all, the classifier returns the empty sequence —
the guard fires before any per-lens rule. -/
theorem classify_empty_guard (feature : String) (score : Option Int)
    (issues : JVal)
    (h : issues = JVal.varr [] ∨ issues.isArr = false) :
    getIssuesForFeature feature issues score = [] := by
  rcases h with h | h
  · subst h
    rfl
  · cases issues with
    | varr l => simp [JVal.isArr] at h
    | vstr t => rfl
    | vnum n => rfl
    | vbool b => rfl
    | vnull => rfl
    | vundef => rfl

/-- C8, witness: a non-array issues value under the security lens and the
empty array under the complexity lens both give the empty sequence. -/
theorem classify_empty_guard_wit :
    getIssuesForFeature "security" JVal.vnull (some 10) = [] ∧
    getIssuesForFeature "complexity" (JVal.varr []) none = [] :=
  ⟨classify_empty_guard "security" (some 10) JVal.vnull (Or.inr rfl),
   classify_empty_guard "complexity" none (JVal.varr []) (Or.inl rfl)⟩

/-- C9: with a file selected, the clearing step sets score to null, issues
to the empty array and the active lens to none, and a failed analysis
leaves the state exactly at those cleared values (only the loading flag is
reset by the finally block). -/
theorem analyze_clears_and_failure_frame (s : AppState)
    (hf : s.file.isSome) :
    (clearedState s).score = JVal.vnull ∧
    (clearedState s).issues = JVal.varr [] ∧
    (clearedState s).activeFeature = none ∧
    analyzeFile s FetchOutcome.failure
      = { clearedState s with loading := false } := by
  obtain ⟨f, hfe⟩ := Option.isSome_iff_exists.mp hf
  refine ⟨rfl, rfl, rfl, ?_⟩
  unfold analyzeFile
  rw [hfe]

/-- C9, witness: a concrete state with stale results, after a failed
analysis, holds exactly the cleared values. -/
theorem analyze_clears_and_failure_frame_wit :
    (clearedState (AppState.mk (some "main.py") (JVal.vnum 72)
        (JVal.varr [JVal.vstr "old issue"]) (some "security") false)).score
      = JVal.vnull ∧
    (clearedState (AppState.mk (some "main.py") (JVal.vnum 72)
        (JVal.varr [JVal.vstr "old issue"]) (some "security") false)).issues
      = JVal.varr [] ∧
    (clearedState (AppState.mk (some "main.py") (JVal.vnum 72)
        (JVal.varr [JVal.vstr "old issue"])
        (some "security") false)).activeFeature = none ∧
    analyzeFile (AppState.mk (some "main.py") (JVal.vnum 72)
        (JVal.varr [JVal.vstr "old issue"]) (some "security") false)
        FetchOutcome.failure
      = { clearedState (AppState.mk (some "main.py") (JVal.vnum 72)
          (JVal.varr [JVal.vstr "old issue"]) (some "security") false) with
          loading := false } :=
  analyze_clears_and_failure_frame
    (AppState.mk (some "main.py") (JVal.vnum 72)
      (JVal.varr [JVal.vstr "old issue"]) (some "security") false) rfl

/-- C10: any lens value outside the four recognized ones yields the empty
sequence for every issues array and every score. -/
theorem unrecognized_lens_empty (feature : String)
    (hf : feature ∉ ["security", "complexity", "dependency", "refactor"])
    (l : List JVal) (score : Option Int) :
    getIssuesForFeature feature (JVal.varr l) score = [] := by
  simp only [List.mem_cons, List.not_mem_nil, or_false, not_or] at hf
  obtain ⟨h1, h2, h3, h4⟩ := hf
  by_cases hl0 : l.length = 0
  · simp [getIssuesForFeature, hl0]
  · simp [getIssuesForFeature, hl0, h1, h2, h3, h4]

/-- C10, witness: the lens "bogus-lens" on issues ["x"] at score 10 gives
the empty sequence. -/
theorem unrecognized_lens_empty_wit :
    getIssuesForFeature "bogus-lens" (JVal.varr [JVal.vstr "x"]) (some 10)
      = [] :=
  unrecognized_lens_empty "bogus-lens" (by decide) [JVal.vstr "x"] (some 10)

end SentinelAI
